import Mathlib

/-!
Shallow embedding of `src/main.rs` of the `grouped_bar_chart` tool.

Modelling conventions:
* Rust `f64`/`f32` arithmetic is modelled by exact rational arithmetic (`ℚ`).
  The one place where IEEE special values are observable — `get_percent_difference`
  dividing by a zero minimum — is modelled explicitly by `F32`, a rational
  extended with `inf`, `negInf` and `nan`, with the IEEE division-by-zero rules.
* `BTreeMap<String, _>` is modelled as an association list kept sorted by key
  (`insertGroup` below mirrors B-tree insertion order semantics).
* `BTreeSet<String>` (the variant set) is modelled by `sortDedup`, a sorted
  duplicate-free list.
* Rust panics (`unwrap()` on `None`, out-of-bounds indexing) are modelled by
  `Option`: a panic is `none`.
* JSON decoding of a line is out of scope (glue); a decoded line is a
  `JsonLine` record whose fields are `Option`-typed exactly where the Rust
  code calls `as_str()` / `as_f64()` on a possibly-absent field.
* SVG nodes are modelled as a list of abstract drawing primitives `Prim`;
  `node.add(child)` is list append.  Pure positional wrappers (the `transform`
  attributes on the legend group and the document) carry no data relevant to
  any property below and are not represented.
-/

/-- `struct BenchData` from `main.rs` (the `Debug` impl is glue). `num_bytes`
is the parsed `u32`; `gbs` the `f64` throughput, both modelled exactly. -/
structure BenchData where
  bench_name : String
  group_name : String
  variant : String
  num_bytes : Nat
  gbs : ℚ
deriving DecidableEq, Repr

/-- One decoded input line as the loader sees it.  A `none` field means the
JSON object lacks the field (or it has the wrong type), which makes the
corresponding `unwrap()` in `load_data` panic. -/
structure JsonLine where
  reason : Option String
  id : Option String
  estimate : Option ℚ
deriving DecidableEq, Repr

/-- Insertion into the `BTreeMap<String, Vec<BenchData>>`:
`groups.entry(group_name).or_default().push(bench_data)`.  Keys are kept in
ascending string order; pushes append at the end of the existing bucket. -/
def insertGroup (key : String) (v : BenchData) :
    List (String × List BenchData) → List (String × List BenchData)
  | [] => [(key, [v])]
  | (k, vs) :: rest =>
    if key = k then (k, vs ++ [v]) :: rest
    else if key < k then (key, [v]) :: (k, vs) :: rest
    else (k, vs) :: insertGroup key v rest

/-- Rust `str::split('/')`, structurally recursive over the characters (so
that proofs can evaluate it): splits into the (possibly empty) components
between the `/` separators. -/
def splitSlash : List Char → List String
  | [] => [""]
  | c :: cs =>
    if c = '/' then "" :: splitSlash cs
    else
      match splitSlash cs with
      | [] => [String.mk [c]]
      | s :: rest => String.mk (c :: s.data) :: rest

/-- The digit loop of Rust `str::parse::<u32>()` (digits only; a leading
`+`, which Rust also accepts, never occurs in benchmark ids). -/
def parseNatAux : List Char → Nat → Option Nat
  | [], acc => some acc
  | c :: cs, acc =>
    if c.isDigit then parseNatAux cs (acc * 10 + (c.toNat - 48))
    else none

/-- Rust `str::parse::<u32>()` before the range check: `none` on an empty
string or any non-digit character. -/
def parseNat (s : String) : Option Nat :=
  match s.data with
  | [] => none
  | cs => parseNatAux cs 0

/-- The body of `load_data`'s per-line loop.  `some groups` unchanged models
`continue` on a non-`benchmark-complete` line; `none` models any of the
panics (`unwrap` on a missing field, id with fewer than 3 components, `u32`
parse failure). -/
def processLine (groups : List (String × List BenchData)) (val : JsonLine) :
    Option (List (String × List BenchData)) :=
  match val.reason with
  | none => none
  | some reason =>
    if reason ≠ "benchmark-complete" then some groups
    else
      match val.id with
      | none => none
      | some name =>
        match splitSlash name.data with
        | bench_name :: variant :: num_bytes_str :: _ =>
          match val.estimate with
          | none => none
          | some duration_ns =>
            match parseNat num_bytes_str with
            | none => none
            | some num_bytes =>
              if num_bytes < 2 ^ 32 then
                let group_name := bench_name ++ "/" ++ toString num_bytes
                let gbs : ℚ := (num_bytes : ℚ) / duration_ns
                some (insertGroup group_name
                  ⟨bench_name, group_name, variant, num_bytes, gbs⟩ groups)
              else none
        | _ => none

/-- The loop of `load_data`, threading the map through the lines. -/
def load_data_aux (groups : List (String × List BenchData)) :
    List JsonLine → Option (List (String × List BenchData))
  | [] => some groups
  | l :: ls =>
    match processLine groups l with
    | none => none
    | some g => load_data_aux g ls

/-- `load_data` from `main.rs`, with file reading and JSON decoding (out of
scope glue) abstracted into the `List JsonLine` argument. -/
def load_data (lines : List JsonLine) : Option (List (String × List BenchData)) :=
  load_data_aux [] lines

/-- `num_bytes_to_name` from `main.rs`: the size→human-label lookup table. -/
def num_bytes_to_name (num_bytes : Nat) : String :=
  match num_bytes with
  | 725 => "725b Text"
  | 66675 => "66K JSON"
  | 64723 => "65K Text"
  | 9991663 => "10Mb Dickens"
  | 34308 => "34K Text"
  | _ => toString num_bytes

/-- The fixed color palette of `main` (a `Vec` consumed by `pop()`). -/
def palette : List String :=
  ["#37123C", "#71677C", "#A99F96", "#DDA77B"]

/-- Insertion into the `BTreeSet<String>` of variant names: sorted,
duplicates dropped. -/
def insertVariant (x : String) : List String → List String
  | [] => [x]
  | y :: ys =>
    if x = y then y :: ys
    else if x < y then x :: y :: ys
    else y :: insertVariant x ys

/-- `collect::<BTreeSet<_>>()`: the canonical sorted duplicate-free list of
the elements. -/
def sortDedup (l : List String) : List String :=
  l.foldr insertVariant []

/-- All variant-name occurrences of a loaded map, in iteration order:
`name_to_benches.iter().flat_map(..).map(|b| b.variant)`. -/
def allVariants (m : List (String × List BenchData)) : List String :=
  m.flatMap fun g => g.2.map (·.variant)

/-- The sorted set of distinct variant names of a loaded map
(`collect::<BTreeSet<_>>()` in `main`). -/
def collectVariants (m : List (String × List BenchData)) : List String :=
  sortDedup (allVariants m)

/-- Color assignment of `main`: iterate the sorted variant names, pairing
each with `colors.pop()` — the last remaining palette entry; `none` models
the `pop().unwrap()` panic when the palette is exhausted. -/
def popAssign (variants colors : List String) : Option (List (String × String)) :=
  match variants with
  | [] => some []
  | v :: vs =>
    match colors.getLast? with
    | none => none
    | some c => (popAssign vs colors.dropLast).map (fun rest => (v, c) :: rest)

/-- The `variant_to_color` map built in `main` from a loaded map. -/
def buildVariantToColor (m : List (String × List BenchData)) :
    Option (List (String × String)) :=
  popAssign (collectVariants m) palette

/-- `const X_AXIS_SPACE: f32 = 80.0`. -/
def X_AXIS_SPACE : ℚ := 80

/-- `struct GroupBarOptions` from `main.rs`. -/
structure GroupBarOptions where
  total_width : ℚ
  total_height : ℚ
  chart_area_to_border_padding : ℚ
  group_padding : ℚ
  bar_padding : ℚ
  print_delta : Bool
deriving DecidableEq, Repr

/-- `GroupBarOptions::get_available_graph_width`. -/
def GroupBarOptions.get_available_graph_width (o : GroupBarOptions) : ℚ :=
  let y_axis_space : ℚ := 80
  o.total_width - y_axis_space - o.chart_area_to_border_padding * 2

/-- `GroupBarOptions::get_available_graph_height`. -/
def GroupBarOptions.get_available_graph_height (o : GroupBarOptions) : ℚ :=
  let x_axis_space := X_AXIS_SPACE
  o.total_height - x_axis_space - o.chart_area_to_border_padding * 2

/-- `struct Group` from `main.rs` (named `ChartGroup` here: `Group` is taken
by Mathlib): a label and the (value, color) bars. -/
structure ChartGroup where
  label : String
  values_and_color : List (ℚ × String)
deriving DecidableEq, Repr

/-- Abstract SVG drawing primitives.  A bar/legend rectangle keeps its
geometry and fill; lines keep endpoints and stroke; text keeps its anchor
position and content (numeric text content is rendered through `toString`,
abstracting Rust's float formatting, which no claim inspects). -/
inductive Prim where
  | rect (x y width height : ℚ) (fill : String)
  | line (x1 y1 x2 y2 : ℚ) (stroke : String)
  | text (x y : ℚ) (content : String)
deriving DecidableEq, Repr

/-- `compute_y_for_value` from `main.rs`. -/
def compute_y_for_value (options : GroupBarOptions) (val max_value : ℚ) : ℚ :=
  let max_height := options.get_available_graph_height
  let bar_start := max_height + options.chart_area_to_border_padding
  let height := max_height * (val / max_value)
  bar_start - height

/-- An `f32` value that may be an IEEE special: needed only where the code
can divide by zero (`get_percent_difference`). -/
inductive F32 where
  | fin (q : ℚ)
  | inf
  | negInf
  | nan
deriving DecidableEq, Repr

/-- IEEE division of two finite `f32` values (zero is `+0`):  `x / 0` is
`NaN` when `x = 0`, `±inf` otherwise by sign; exact otherwise. -/
def F32.div (a b : ℚ) : F32 :=
  if b = 0 then
    if a = 0 then .nan else if 0 < a then .inf else .negInf
  else .fin (a / b)

/-- Multiplication of a possibly-special `f32` by the positive literal `100.0`. -/
def F32.mul100 : F32 → F32
  | .fin q => .fin (q * 100)
  | .inf => .inf
  | .negInf => .negInf
  | .nan => .nan

/-- Rust `format!("{:.2}", q)` for a finite value: sign, integer part, and
exactly two fractional digits (rounded to nearest). -/
def fmtTwoDecimals (q : ℚ) : String :=
  let n : ℤ := round (|q| * 100)
  let sign := if q < 0 then "-" else ""
  let ip := n / 100
  let fp := n % 100
  sign ++ toString ip ++ "." ++ (if fp < 10 then "0" ++ toString fp else toString fp)

/-- Rust `format!("{:.2}", v)` on a possibly-special `f32`: specials print
as `inf` / `-inf` / `NaN`. -/
def F32.fmtTwo : F32 → String
  | .fin q => fmtTwoDecimals q
  | .inf => "inf"
  | .negInf => "-inf"
  | .nan => "NaN"

/-- `get_percent_difference` from `main.rs`:
`format!("+{:.2}%", (max - min) / min * 100.0)`. -/
def get_percent_difference (mn mx : ℚ) : String :=
  let difference := mx - mn
  let percent_difference := (F32.div difference mn).mul100
  "+" ++ percent_difference.fmtTwo ++ "%"

/-- The bar loop of `draw_group`: one `Rectangle` per (value, color), the
x-cursor advancing by `bar_width + bar_padding`. -/
def drawBars (options : GroupBarOptions) (max_value bar_width bar_padding : ℚ) :
    ℚ → List (ℚ × String) → List Prim
  | _, [] => []
  | bar_x, (val, color) :: rest =>
    let max_height := options.get_available_graph_height
    let height := max_height * (val / max_value)
    let y := compute_y_for_value options val max_value
    Prim.rect bar_x y bar_width height color ::
      drawBars options max_value bar_width bar_padding (bar_x + bar_width + bar_padding) rest

/-- `draw_group` from `main.rs`: bar rectangles, the group label, and (when
`print_delta`) the percent-difference annotation above the tallest bar.
`none` models the `min_by`/`max_by` `unwrap()` panic on an empty bar list.
(`group_width` is an unused parameter in the source as well.) -/
def draw_group (doc : List Prim) (options : GroupBarOptions) (groups : ChartGroup)
    (group_start_x bar_width group_width bar_padding max_value : ℚ) :
    Option (List Prim) :=
  let max_height := options.get_available_graph_height
  let bar_start := max_height + options.chart_area_to_border_padding
  let _ := group_width
  let g := doc ++ drawBars options max_value bar_width bar_padding group_start_x
      groups.values_and_color
  let g := g ++ [Prim.text (group_start_x + bar_width) (bar_start + 20) groups.label]
  if options.print_delta then
    match (groups.values_and_color.map (·.1)).min?,
          (groups.values_and_color.map (·.1)).max? with
    | some mn, some mx =>
      let y := compute_y_for_value options mx max_value
      some (g ++ [Prim.text (group_start_x + bar_width) (y - 10)
        (get_percent_difference mn mx)])
    | _, _ => none
  else some g

/-- `calc_step_size` from `main.rs`, in exact arithmetic:
`Int.log 10` is `⌊log₁₀⌋` on positive rationals (`Real.floor_logb_natCast`),
`round` is `f64::round` for the positive arguments that arise. -/
def calc_step_size (max_val target_steps : ℚ) : ℚ :=
  let temp_step := max_val / target_steps
  let mag : ℤ := Int.log 10 temp_step
  let mag_pow : ℚ := (10 : ℚ) ^ mag
  let mag_msd : ℤ := round (temp_step / mag_pow + 1 / 2)
  let mag_msd : ℚ :=
    if 5 < mag_msd then 10
    else if 2 < mag_msd then 5
    else if 1 < mag_msd then 2
    else 1
  mag_msd * mag_pow

/-- `bar_axis_ticks` from `main.rs`: `num_ticks` multiples of the step size. -/
def bar_axis_ticks (mx : ℚ) (num_ticks : Nat) : List ℚ :=
  let step_size := calc_step_size mx (num_ticks : ℚ)
  (List.range num_ticks).map fun i => (i : ℚ) * step_size

/-- `draw_y_scale` from `main.rs`: per tick a tick mark, a gridline and a
numeric label; then the axis caption and the axis line. -/
def draw_y_scale (group : List Prim) (options : GroupBarOptions)
    (axis_label : String) (group_start_x max_value : ℚ) : List Prim :=
  let num_markings : Nat := 8
  let axis_x_pos := group_start_x - 5
  let axis := Prim.line axis_x_pos options.chart_area_to_border_padding axis_x_pos
      (options.chart_area_to_border_padding + options.get_available_graph_height)
      "#000000"
  let ticks := bar_axis_ticks max_value num_markings
  let group := group ++ ticks.flatMap fun val =>
    let y := compute_y_for_value options val max_value
    [Prim.line axis_x_pos y (axis_x_pos - 5) y "#000000",
     Prim.line (axis_x_pos - 5) y
       (options.bar_padding + options.get_available_graph_width) y "#999999",
     Prim.text (axis_x_pos - 10) (y + 4) (toString val)]
  let mid_point :=
    (options.chart_area_to_border_padding + options.get_available_graph_height) / 2
  let group := group ++ [Prim.text 30 mid_point axis_label]
  group ++ [axis]

/-- `draw_x_scale` from `main.rs`: the single baseline line (its
`num_markings` / `marking_distance` locals are dead code in the source). -/
def draw_x_scale (group : List Prim) (options : GroupBarOptions)
    (axis_label : String) (group_start_x max_value : ℚ) : List Prim :=
  let _ := axis_label
  let _ := max_value
  group ++ [Prim.line (group_start_x - 5)
    (options.chart_area_to_border_padding + options.get_available_graph_height)
    (group_start_x + options.get_available_graph_width)
    (options.chart_area_to_border_padding + options.get_available_graph_height)
    "#000000"]

/-- The per-variant rows of `draw_legend` (text label and color swatch),
with the running `variant_y` cursor. -/
def drawLegendEntries (legend_width legend_entry_height : ℚ) :
    ℚ → List (String × String) → List Prim
  | _, [] => []
  | variant_y, (label, color) :: rest =>
    Prim.text 10 (variant_y + 10) label ::
    Prim.rect (legend_width - 30) variant_y 20 (legend_entry_height - 10) color ::
    drawLegendEntries legend_width legend_entry_height
      (variant_y + legend_entry_height) rest

/-- `draw_legend` from `main.rs`: the white background box then one row per
variant (the box's stroke attribute carries no geometry and is not kept). -/
def draw_legend (group : List Prim) (options : GroupBarOptions)
    (variant_to_color : List (String × String)) : List Prim :=
  let _ := options
  let legend_padding : ℚ := 10
  let legend_entry_height : ℚ := 20
  let legend_width : ℚ := 120
  let legend_height :=
    legend_padding * 2 + (variant_to_color.length : ℚ) * legend_entry_height
  let group := group ++ [Prim.rect 0 0 legend_width legend_height "#FFFFFF"]
  group ++ drawLegendEntries legend_width legend_entry_height
    (legend_padding + 5) variant_to_color

/-- `max_value` of `render_grouped_bar_chart`: the maximum bar value across
all groups; `none` models the `unwrap()` panic when no bar exists. -/
def maxBarValue (groups : List ChartGroup) : Option ℚ :=
  (groups.flatMap fun g => g.values_and_color.map (·.1)).max?

/-- The group loop of `render_grouped_bar_chart`, advancing the x-cursor by
`group_width` after each group. -/
def drawGroupsFold (options : GroupBarOptions) (bar_width group_width max_value : ℚ) :
    List Prim → ℚ → List ChartGroup → Option (List Prim)
  | doc, _, [] => some doc
  | doc, curr_group_x, g :: gs =>
    match draw_group doc options g curr_group_x bar_width group_width
        options.bar_padding max_value with
    | none => none
    | some doc2 =>
      drawGroupsFold options bar_width group_width max_value doc2
        (curr_group_x + group_width) gs

/-- `render_grouped_bar_chart` from `main.rs`: scales, the groups, the
legend, and the title (the legend translate and the document-level
translate are positional wrappers carrying no modelled data). -/
def render_grouped_bar_chart (title : String) (doc : List Prim)
    (options : GroupBarOptions) (groups : List ChartGroup)
    (variant_to_color : List (String × String)) : Option (List Prim) :=
  match maxBarValue groups with
  | none => none
  | some max_value =>
    let available_graph_space := options.get_available_graph_width
    let group_width := available_graph_space / (groups.length : ℚ)
    match (groups.map fun g => (g.values_and_color.length : ℕ)).max? with
    | none => none
    | some max_num_bars_in_group =>
      let bar_width := min (group_width / (max_num_bars_in_group : ℚ)) 30
      let curr_group_x := X_AXIS_SPACE + options.chart_area_to_border_padding
      let doc := draw_y_scale doc options "Gb/s" curr_group_x max_value
      let doc := draw_x_scale doc options "Gb/s" curr_group_x max_value
      match drawGroupsFold options bar_width group_width max_value doc
          curr_group_x groups with
      | none => none
      | some doc2 =>
        let doc3 := doc2 ++ draw_legend [] options variant_to_color
        some (doc3 ++ [Prim.text
          (options.chart_area_to_border_padding +
            options.get_available_graph_width - 70) 0 title])

/-- `variant_to_color.get(&run.variant)`: association-list lookup. -/
def lookupColor (vtc : List (String × String)) (v : String) : Option String :=
  (vtc.find? fun p => p.1 = v).map (·.2)

/-- The group-building loop of `main`: one `Group` per bucket, in bucket
(key) order, pairing each record's throughput with its variant's color;
`none` models the `get(..).unwrap()` panic on an unmapped variant (the
`group[0]` index cannot panic: buckets are never empty). -/
def buildGroups (m : List (String × List BenchData))
    (vtc : List (String × String)) : Option (List ChartGroup) :=
  m.mapM fun g => do
    let vac ← g.2.mapM fun run => do
      let c ← lookupColor vtc run.variant
      pure (run.gbs, c)
    match g.2 with
    | [] => none
    | r0 :: _ => pure ⟨num_bytes_to_name r0.num_bytes, vac⟩

/-- The `GroupBarOptions` literal built in `main`:
width 800, height 600, border padding 10, group padding 20, bar padding 3,
delta printing on. -/
def mainOptions : GroupBarOptions := ⟨800, 600, 10, 20, 3, true⟩

/-- The heights of the rectangle primitives of a drawing, in order. -/
def rectHeights : List Prim → List ℚ
  | [] => []
  | .rect _ _ _ h _ :: rest => h :: rectHeights rest
  | _ :: rest => rectHeights rest

/-- The contents of the text primitives of a drawing, in order. -/
def textContents : List Prim → List String
  | [] => []
  | .text _ _ s :: rest => s :: textContents rest
  | _ :: rest => textContents rest

/-- Modelled from the spec: the loader's exclusion filter.  The second
source variant of the repository (the spec's ≈1165 lines cover two largely
duplicate implementations, only one of which is under `src/`) applies a
caller-specified size exclusion; spec §4.1: "Apply an optional exclusion
filter: a caller-specified size value (or set of values) that should be
dropped unconditionally even if well-formed".  This is `processLine` with
the excluded sizes skipped after parsing, right before insertion. -/
def processLineExcluding (exclude : List Nat)
    (groups : List (String × List BenchData)) (val : JsonLine) :
    Option (List (String × List BenchData)) :=
  match val.reason with
  | none => none
  | some reason =>
    if reason ≠ "benchmark-complete" then some groups
    else
      match val.id with
      | none => none
      | some name =>
        match splitSlash name.data with
        | bench_name :: variant :: num_bytes_str :: _ =>
          match val.estimate with
          | none => none
          | some duration_ns =>
            match parseNat num_bytes_str with
            | none => none
            | some num_bytes =>
              if num_bytes < 2 ^ 32 then
                if num_bytes ∈ exclude then some groups
                else
                  let group_name := bench_name ++ "/" ++ toString num_bytes
                  let gbs : ℚ := (num_bytes : ℚ) / duration_ns
                  some (insertGroup group_name
                    ⟨bench_name, group_name, variant, num_bytes, gbs⟩ groups)
              else none
        | _ => none

/-- Modelled from the spec: `load_data` of the second source variant,
threading the exclusion filter through the lines. -/
def load_data_excluding_aux (exclude : List Nat)
    (groups : List (String × List BenchData)) :
    List JsonLine → Option (List (String × List BenchData))
  | [] => some groups
  | l :: ls =>
    match processLineExcluding exclude groups l with
    | none => none
    | some g => load_data_excluding_aux exclude g ls

/-- Modelled from the spec: the exclusion-filtering loader, starting from
the empty map. -/
def load_data_excluding (exclude : List Nat) (lines : List JsonLine) :
    Option (List (String × List BenchData)) :=
  load_data_excluding_aux exclude [] lines

/-! ### Helper lemmas -/

theorem mem_keys_insertGroup (key : String) (v : BenchData)
    (l : List (String × List BenchData)) (b : String) :
    b ∈ (insertGroup key v l).map Prod.fst ↔ b = key ∨ b ∈ l.map Prod.fst := by
  induction l with
  | nil => simp [insertGroup]
  | cons p rest ih =>
    obtain ⟨k, vs⟩ := p
    simp only [insertGroup]
    by_cases h1 : key = k
    · rw [if_pos h1]
      subst h1
      simp
    · by_cases h2 : key < k
      · rw [if_neg h1, if_pos h2]
        simp
      · rw [if_neg h1, if_neg h2]
        simp only [List.map_cons, List.mem_cons, ih]
        tauto

theorem sorted_insertGroup (key : String) (v : BenchData)
    (l : List (String × List BenchData))
    (h : List.Sorted (· < ·) (l.map Prod.fst)) :
    List.Sorted (· < ·) ((insertGroup key v l).map Prod.fst) := by
  induction l with
  | nil => simp [insertGroup]
  | cons p rest ih =>
    obtain ⟨k, vs⟩ := p
    simp only [List.map_cons, List.sorted_cons] at h
    obtain ⟨hk, hrest⟩ := h
    simp only [insertGroup]
    by_cases h1 : key = k
    · rw [if_pos h1]
      simp only [List.map_cons, List.sorted_cons]
      exact ⟨hk, hrest⟩
    · by_cases h2 : key < k
      · rw [if_neg h1, if_pos h2]
        simp only [List.map_cons, List.sorted_cons]
        refine ⟨?_, hk, hrest⟩
        intro b hb
        rcases List.mem_cons.mp hb with rfl | hb
        · exact h2
        · exact lt_trans h2 (hk b hb)
      · rw [if_neg h1, if_neg h2]
        simp only [List.map_cons, List.sorted_cons]
        refine ⟨?_, ih hrest⟩
        intro b hb
        rcases (mem_keys_insertGroup key v rest b).mp hb with rfl | hb
        · exact lt_of_le_of_ne (not_lt.mp h2) (fun e => h1 e.symm)
        · exact hk b hb

theorem processLine_sorted {groups g2 : List (String × List BenchData)}
    {l : JsonLine} (h : List.Sorted (· < ·) (groups.map Prod.fst))
    (hp : processLine groups l = some g2) :
    List.Sorted (· < ·) (g2.map Prod.fst) := by
  unfold processLine at hp
  repeat' split at hp
  all_goals first
    | exact h
    | exact sorted_insertGroup _ _ _ h
    | (injection hp with hp; subst hp;
       first
         | exact h
         | exact sorted_insertGroup _ _ _ h)
    | injection hp

theorem load_data_aux_sorted (lines : List JsonLine) :
    ∀ groups m, List.Sorted (· < ·) (groups.map Prod.fst) →
      load_data_aux groups lines = some m →
      List.Sorted (· < ·) (m.map Prod.fst) := by
  induction lines with
  | nil =>
    intro groups m h heq
    injection heq with heq
    subst heq
    exact h
  | cons l ls ih =>
    intro groups m h heq
    unfold load_data_aux at heq
    cases hp : processLine groups l with
    | none => rw [hp] at heq; cases heq
    | some g2 =>
      rw [hp] at heq
      exact ih g2 m (processLine_sorted h hp) heq

theorem mem_insertVariant (x a : String) (l : List String) :
    a ∈ insertVariant x l ↔ a = x ∨ a ∈ l := by
  induction l with
  | nil => simp [insertVariant]
  | cons y ys ih =>
    simp only [insertVariant]
    by_cases h1 : x = y
    · rw [if_pos h1]
      subst h1
      simp
    · by_cases h2 : x < y
      · rw [if_neg h1, if_pos h2]
        simp
      · rw [if_neg h1, if_neg h2]
        simp only [List.mem_cons, ih]
        tauto

theorem sorted_insertVariant (x : String) (l : List String)
    (h : List.Sorted (· < ·) l) : List.Sorted (· < ·) (insertVariant x l) := by
  induction l with
  | nil => simp [insertVariant]
  | cons y ys ih =>
    rw [List.sorted_cons] at h
    obtain ⟨hy, hys⟩ := h
    simp only [insertVariant]
    by_cases h1 : x = y
    · rw [if_pos h1]
      exact List.sorted_cons.mpr ⟨hy, hys⟩
    · by_cases h2 : x < y
      · rw [if_neg h1, if_pos h2]
        refine List.sorted_cons.mpr ⟨?_, List.sorted_cons.mpr ⟨hy, hys⟩⟩
        intro b hb
        rcases List.mem_cons.mp hb with rfl | hb
        · exact h2
        · exact lt_trans h2 (hy b hb)
      · rw [if_neg h1, if_neg h2]
        refine List.sorted_cons.mpr ⟨?_, ih hys⟩
        intro b hb
        rcases (mem_insertVariant x b ys).mp hb with rfl | hb
        · exact lt_of_le_of_ne (not_lt.mp h2) (fun e => h1 e.symm)
        · exact hy b hb

theorem sortDedup_cons (x : String) (xs : List String) :
    sortDedup (x :: xs) = insertVariant x (sortDedup xs) := rfl

theorem sorted_sortDedup (l : List String) :
    List.Sorted (· < ·) (sortDedup l) := by
  induction l with
  | nil => simp [sortDedup]
  | cons x xs ih =>
    rw [sortDedup_cons]
    exact sorted_insertVariant x _ ih

theorem mem_sortDedup (a : String) (l : List String) :
    a ∈ sortDedup l ↔ a ∈ l := by
  induction l with
  | nil => simp [sortDedup]
  | cons x xs ih =>
    rw [sortDedup_cons, mem_insertVariant]
    simp [ih]

theorem sortDedup_ext {l1 l2 : List String} (h : ∀ a, a ∈ l1 ↔ a ∈ l2) :
    sortDedup l1 = sortDedup l2 := by
  haveI : IsAntisymm String (· < ·) :=
    ⟨fun a b h1 h2 => absurd h1 (lt_asymm h2)⟩
  have s1 := sorted_sortDedup l1
  have s2 := sorted_sortDedup l2
  refine List.eq_of_perm_of_sorted ?_ s1 s2
  refine (List.perm_ext_iff_of_nodup s1.nodup s2.nodup).mpr ?_
  intro a
  rw [mem_sortDedup, mem_sortDedup]
  exact h a

theorem popAssign_none_of_short (variants : List String) :
    ∀ colors : List String, colors.length < variants.length →
      popAssign variants colors = none := by
  induction variants with
  | nil => intro colors h; simp at h
  | cons v vs ih =>
    intro colors h
    simp only [popAssign]
    cases hc : colors.getLast? with
    | none => rfl
    | some c =>
      have hne : colors ≠ [] := by
        rintro rfl
        simp at hc
      have hlen : colors.dropLast.length < vs.length := by
        rw [List.length_dropLast]
        have : colors.length ≠ 0 := fun e => hne (List.length_eq_zero.mp e)
        simp only [List.length_cons] at h
        omega
      rw [ih colors.dropLast hlen]
      rfl

theorem popAssign_assigned (variants : List String) :
    ∀ colors cm, colors.Nodup → popAssign variants colors = some cm →
      (cm.map Prod.snd).Nodup ∧ cm.length ≤ colors.length ∧
      (∀ p ∈ cm, p.2 ∈ colors) ∧ cm.map Prod.fst = variants := by
  induction variants with
  | nil =>
    intro colors cm _ h
    injection h with h
    subst h
    simp
  | cons v vs ih =>
    intro colors cm hnd h
    simp only [popAssign] at h
    cases hc : colors.getLast? with
    | none => rw [hc] at h; cases h
    | some c =>
      rw [hc] at h
      cases hrest : popAssign vs colors.dropLast with
      | none => rw [hrest] at h; cases h
      | some rest =>
        rw [hrest] at h
        injection h with h
        subst h
        have hne : colors ≠ [] := by
          rintro rfl
          simp at hc
        have hsplit : colors.dropLast ++ [c] = colors := by
          rw [List.getLast?_eq_getLast _ hne] at hc
          injection hc with hc
          rw [← hc]
          exact List.dropLast_append_getLast hne
        have hndrop : colors.dropLast.Nodup := by
          rw [← hsplit] at hnd
          exact (List.nodup_append.mp hnd).1
        have hcnot : c ∉ colors.dropLast := by
          rw [← hsplit] at hnd
          intro hmem
          rcases List.nodup_append.mp hnd with ⟨_, _, hdisj⟩
          exact hdisj hmem (by simp)
        obtain ⟨h1, h2, h3, h4⟩ := ih colors.dropLast rest hndrop hrest
        refine ⟨?_, ?_, ?_, ?_⟩
        · simp only [List.map_cons, List.nodup_cons]
          exact ⟨fun hmem => by
            obtain ⟨p, hp, hpc⟩ := List.mem_map.mp hmem
            exact hcnot (hpc ▸ h3 p hp), h1⟩
        · have : colors.dropLast.length + 1 = colors.length := by
            rw [List.length_dropLast]
            have : colors.length ≠ 0 := fun e => hne (List.length_eq_zero.mp e)
            omega
          simp only [List.length_cons]
          omega
        · intro p hp
          rcases List.mem_cons.mp hp with rfl | hp
          · rw [← hsplit]; simp
          · rw [← hsplit]
            exact List.mem_append_left _ (h3 p hp)
        · simp [h4]

theorem textContents_append (a b : List Prim) :
    textContents (a ++ b) = textContents a ++ textContents b := by
  induction a with
  | nil => rfl
  | cons p rest ih =>
    cases p <;> simp [textContents, ih]

theorem textContents_drawBars (options : GroupBarOptions)
    (mv bw bp : ℚ) (vals : List (ℚ × String)) :
    ∀ x, textContents (drawBars options mv bw bp x vals) = [] := by
  induction vals with
  | nil => intro x; rfl
  | cons vc rest ih =>
    intro x
    obtain ⟨val, color⟩ := vc
    simp only [drawBars, textContents]
    exact ih _

theorem rect_mem_drawBars {options : GroupBarOptions} {mv bw bp : ℚ}
    {vals : List (ℚ × String)} {rx ry rw rh : ℚ} {fill : String} :
    ∀ {x : ℚ}, Prim.rect rx ry rw rh fill ∈ drawBars options mv bw bp x vals →
      ∃ vc ∈ vals, rh = options.get_available_graph_height * (vc.1 / mv) ∧
        ry = (options.get_available_graph_height +
          options.chart_area_to_border_padding) - rh := by
  induction vals with
  | nil => intro x hm; simp [drawBars] at hm
  | cons vc rest ih =>
    intro x hm
    obtain ⟨val, color⟩ := vc
    simp only [drawBars, List.mem_cons] at hm
    rcases hm with heq | hm
    · rw [Prim.rect.injEq] at heq
      obtain ⟨hx, hy, hw, hh, hf⟩ := heq
      refine ⟨(val, color), List.mem_cons_self _ _, hh, ?_⟩
      rw [hy, hh]
      rfl
    · obtain ⟨vc, hvc, hgeo⟩ := ih hm
      exact ⟨vc, List.mem_cons_of_mem _ hvc, hgeo⟩

theorem draw_group_isSome (doc : List Prim) (options : GroupBarOptions)
    (g : ChartGroup) (gsx bw gw bp mv : ℚ)
    (h : g.values_and_color ≠ []) :
    ∃ l, draw_group doc options g gsx bw gw bp mv = some l := by
  unfold draw_group
  cases hd : options.print_delta with
  | false => simp
  | true =>
    simp only [if_true]
    have hne : g.values_and_color.map (·.1) ≠ [] := by
      simpa using h
    cases hmin : (g.values_and_color.map (·.1)).min? with
    | none => exact absurd (List.min?_eq_none_iff.mp hmin) hne
    | some mn =>
      cases hmax : (g.values_and_color.map (·.1)).max? with
      | none => exact absurd (List.max?_eq_none_iff.mp hmax) hne
      | some mx => exact ⟨_, rfl⟩

theorem drawGroupsFold_isSome (options : GroupBarOptions) (bw gw mv : ℚ) :
    ∀ (gs : List ChartGroup) (doc : List Prim) (x : ℚ),
      (∀ g ∈ gs, g.values_and_color ≠ []) →
      ∃ l, drawGroupsFold options bw gw mv doc x gs = some l := by
  intro gs
  induction gs with
  | nil => intro doc x _; exact ⟨doc, rfl⟩
  | cons g rest ih =>
    intro doc x hbars
    obtain ⟨l1, hl1⟩ := draw_group_isSome doc options g x bw gw
      options.bar_padding mv (hbars g (List.mem_cons_self _ _))
    obtain ⟨l2, hl2⟩ := ih l1 (x + gw)
      (fun g' hg' => hbars g' (List.mem_cons_of_mem _ hg'))
    refine ⟨l2, ?_⟩
    simp only [drawGroupsFold, hl1, hl2]

theorem int_log_ratCast (q : ℚ) (hq : 0 < q) :
    Int.log 10 ((q : ℝ)) = Int.log 10 q := by
  have h1 : (0 : ℝ) < (q : ℝ) := by exact_mod_cast hq
  apply le_antisymm
  · rw [← Int.zpow_le_iff_le_log (by norm_num) hq]
    have h2 := @Int.zpow_log_le_self ℝ _ _ 10 (q : ℝ) (by norm_num) h1
    rw [show (((10 : ℕ) : ℝ)) = (((10 : ℕ) : ℚ) : ℝ) by norm_cast] at h2
    rw [← Rat.cast_zpow] at h2
    exact_mod_cast h2
  · rw [← Int.zpow_le_iff_le_log (by norm_num) h1]
    have h2 := @Int.zpow_log_le_self ℚ _ _ 10 q (by norm_num) hq
    have h3 : ((((10 : ℕ) : ℚ) ^ Int.log 10 q : ℚ) : ℝ) ≤ (q : ℝ) := by
      exact_mod_cast h2
    rw [Rat.cast_zpow] at h3
    rw [show ((((10 : ℕ) : ℚ) : ℝ)) = ((10 : ℕ) : ℝ) by norm_cast] at h3
    exact h3

theorem calc_step_size_shape (max_val target_steps : ℚ) :
    ∃ msd : ℚ, (msd = 1 ∨ msd = 2 ∨ msd = 5 ∨ msd = 10) ∧
      calc_step_size max_val target_steps =
        msd * (10 : ℚ) ^ Int.log 10 (max_val / target_steps) := by
  have key : ∀ m : ℤ, ∃ msd : ℚ, (msd = 1 ∨ msd = 2 ∨ msd = 5 ∨ msd = 10) ∧
      (if 5 < m then (10 : ℚ) else if 2 < m then 5 else if 1 < m then 2 else 1)
        = msd := by
    intro m
    by_cases h5 : 5 < m
    · exact ⟨10, by tauto, by rw [if_pos h5]⟩
    · by_cases h2 : 2 < m
      · exact ⟨5, by tauto, by rw [if_neg h5, if_pos h2]⟩
      · by_cases h1 : 1 < m
        · exact ⟨2, by tauto, by rw [if_neg h5, if_neg h2, if_pos h1]⟩
        · exact ⟨1, by tauto, by rw [if_neg h5, if_neg h2, if_neg h1]⟩
  obtain ⟨msd, hmem, hval⟩ := key (round (max_val / target_steps /
    (10 : ℚ) ^ Int.log 10 (max_val / target_steps) + 1 / 2))
  refine ⟨msd, hmem, ?_⟩
  simp only [calc_step_size]
  rw [hval]

theorem draw_group_delta_eq (doc : List Prim) (options : GroupBarOptions)
    (g : ChartGroup) (gsx bw gw bp mv mn mx : ℚ)
    (hd : options.print_delta = true)
    (hmin : (g.values_and_color.map (·.1)).min? = some mn)
    (hmax : (g.values_and_color.map (·.1)).max? = some mx) :
    draw_group doc options g gsx bw gw bp mv = some
      (doc ++ drawBars options mv bw bp gsx g.values_and_color ++
       [Prim.text (gsx + bw) ((options.get_available_graph_height +
          options.chart_area_to_border_padding) + 20) g.label] ++
       [Prim.text (gsx + bw) (compute_y_for_value options mx mv - 10)
          (get_percent_difference mn mx)]) := by
  unfold draw_group
  rw [hd, hmin, hmax]
  rfl

/-! ### Claim theorems -/

/-- C1: for every `max_value > 0` and `target_steps = 8`,
`calc_step_size` returns `msd * 10 ^ magnitude` where
`magnitude = ⌊log₁₀(max_value / 8)⌋` and the snapped most-significant
digit `msd` is one of 1, 2, 5, 10. -/
theorem calc_step_size_nice (max_value : ℚ) (h : 0 < max_value) :
    ∃ msd : ℚ, (msd = 1 ∨ msd = 2 ∨ msd = 5 ∨ msd = 10) ∧
      calc_step_size max_value 8 =
        msd * (10 : ℚ) ^ ⌊Real.logb 10 ((max_value : ℝ) / 8)⌋ := by
  have hpos : (0 : ℚ) < max_value / 8 := by positivity
  have hcast : ((max_value / 8 : ℚ) : ℝ) = (max_value : ℝ) / 8 := by
    push_cast
    ring
  have hfloor : ⌊Real.logb 10 ((max_value : ℝ) / 8)⌋ =
      Int.log 10 (max_value / 8) := by
    rw [← hcast]
    rw [show (10 : ℝ) = ((10 : ℕ) : ℝ) by norm_cast]
    rw [Real.floor_logb_natCast (by positivity)]
    exact int_log_ratCast _ hpos
  rw [hfloor]
  exact calc_step_size_shape max_value 8

/-- Witness for C1 at `max_value = 80`: the hypothesis `0 < 80` holds and
the step size 20 has the nice shape. -/
theorem calc_step_size_nice_witness :
    (0 : ℚ) < 80 ∧
    ∃ msd : ℚ, (msd = 1 ∨ msd = 2 ∨ msd = 5 ∨ msd = 10) ∧
      calc_step_size 80 8 = msd * (10 : ℚ) ^ ⌊Real.logb 10 (((80 : ℚ) : ℝ) / 8)⌋ :=
  ⟨by norm_num, calc_step_size_nice 80 (by norm_num)⟩

/-- C3: for every loaded input, the groups are produced (and hence handed
to the renderer, which walks them in list order with an advancing
x-cursor) in ascending lexicographic order of the `"{bench_name}/{num_bytes}"`
key — the `BTreeMap` iteration order, not insertion order. -/
theorem load_data_keys_sorted (lines : List JsonLine)
    (m : List (String × List BenchData)) (h : load_data lines = some m) :
    List.Sorted (· < ·) (m.map Prod.fst) :=
  load_data_aux_sorted lines [] m (by simp) h

/-- Witness for C3: two lines arriving in the order `b/…` then `a/…` load
into a map whose keys come out sorted (`a/1` before `b/2`). -/
theorem load_data_keys_sorted_witness :
    List.Sorted (· < ·)
      ((([("a/1", [⟨"a", "a/1", "slow", 1, 1/10⟩]),
          ("b/2", [⟨"b", "b/2", "fast", 2, 1/5⟩])] :
         List (String × List BenchData))).map Prod.fst) :=
  load_data_keys_sorted
    [⟨some "benchmark-complete", some "b/fast/2", some 10⟩,
     ⟨some "benchmark-complete", some "a/slow/1", some 10⟩]
    [("a/1", [⟨"a", "a/1", "slow", 1, 1/10⟩]),
     ("b/2", [⟨"b", "b/2", "fast", 2, 1/5⟩])]
    (by with_unfolding_all decide)

/-- C4: two loaded inputs with the same set of distinct variant names get
the identical variant→color map, whatever the group contents, frequencies
or positions; moreover the first variant in sorted order receives the last
palette color `"#DDA77B"`. -/
theorem variant_color_determinism (m1 m2 : List (String × List BenchData))
    (h : ∀ v, v ∈ allVariants m1 ↔ v ∈ allVariants m2) :
    buildVariantToColor m1 = buildVariantToColor m2 ∧
    ∀ v vs, collectVariants m1 = v :: vs →
      ∀ cm, buildVariantToColor m1 = some cm →
        ∃ rest, cm = (v, "#DDA77B") :: rest := by
  constructor
  · unfold buildVariantToColor collectVariants
    rw [sortDedup_ext h]
  · intro v vs hvv cm hcm
    unfold buildVariantToColor at hcm
    rw [hvv] at hcm
    rw [show popAssign (v :: vs) palette =
        (popAssign vs palette.dropLast).map
          (fun rest => (v, "#DDA77B") :: rest) from rfl] at hcm
    cases hpa : popAssign vs palette.dropLast with
    | none => rw [hpa] at hcm; cases hcm
    | some rest =>
      rw [hpa] at hcm
      simp only [Option.map_some'] at hcm
      exact ⟨rest, (Option.some.inj hcm).symm⟩

/-- Witness for C4: one map with a `fast` record and a `slow` record in two
groups, another with the two variants (one duplicated) in a single group:
same variant set, identical color maps, and `fast` (first in sorted order)
gets `"#DDA77B"`. -/
theorem variant_color_determinism_witness :
    buildVariantToColor
        [("a/1", [⟨"a", "a/1", "fast", 1, 1⟩]),
         ("a/2", [⟨"a", "a/2", "slow", 2, 1⟩])] =
      buildVariantToColor
        [("z/9", [⟨"z", "z/9", "slow", 9, 5⟩, ⟨"z", "z/9", "fast", 9, 7⟩,
                  ⟨"z", "z/9", "fast", 9, 7⟩])] ∧
    ∀ v vs, collectVariants
        [("a/1", [⟨"a", "a/1", "fast", 1, 1⟩]),
         ("a/2", [⟨"a", "a/2", "slow", 2, 1⟩])] = v :: vs →
      ∀ cm, buildVariantToColor
          [("a/1", [⟨"a", "a/1", "fast", 1, 1⟩]),
           ("a/2", [⟨"a", "a/2", "slow", 2, 1⟩])] = some cm →
        ∃ rest, cm = (v, "#DDA77B") :: rest :=
  variant_color_determinism
    [("a/1", [⟨"a", "a/1", "fast", 1, 1⟩]),
     ("a/2", [⟨"a", "a/2", "slow", 2, 1⟩])]
    [("z/9", [⟨"z", "z/9", "slow", 9, 5⟩, ⟨"z", "z/9", "fast", 9, 7⟩,
              ⟨"z", "z/9", "fast", 9, 7⟩])]
    (by
      intro v
      show v ∈ ["fast", "slow"] ↔ v ∈ ["slow", "fast", "fast"]
      simp
      tauto)

/-- C7: whenever the number of distinct variant names exceeds the 4-color
palette, building the color map fails (`pop().unwrap()` panic, the
`PaletteExhausted` condition); when it succeeds, every variant gets a
distinct color and at most 4 colors are handed out — no cycling. -/
theorem palette_exhausted (m : List (String × List BenchData)) :
    (4 < (collectVariants m).length → buildVariantToColor m = none) ∧
    (∀ cm, buildVariantToColor m = some cm →
      (cm.map Prod.snd).Nodup ∧ cm.length ≤ 4) := by
  constructor
  · intro h
    unfold buildVariantToColor
    exact popAssign_none_of_short _ palette (by simpa [palette] using h)
  · intro cm hcm
    unfold buildVariantToColor at hcm
    obtain ⟨h1, h2, _, _⟩ := popAssign_assigned _ palette cm (by decide) hcm
    exact ⟨h1, by simpa [palette] using h2⟩

/-- Witness for C7: five distinct variants in one bucket make the color-map
build fail. -/
theorem palette_exhausted_witness :
    buildVariantToColor
      [("k/1", [⟨"k", "k/1", "v1", 1, 1⟩, ⟨"k", "k/1", "v2", 1, 1⟩,
                ⟨"k", "k/1", "v3", 1, 1⟩, ⟨"k", "k/1", "v4", 1, 1⟩,
                ⟨"k", "k/1", "v5", 1, 1⟩])] = none :=
  (palette_exhausted
    [("k/1", [⟨"k", "k/1", "v1", 1, 1⟩, ⟨"k", "k/1", "v2", 1, 1⟩,
              ⟨"k", "k/1", "v3", 1, 1⟩, ⟨"k", "k/1", "v4", 1, 1⟩,
              ⟨"k", "k/1", "v5", 1, 1⟩])]).1 (by with_unfolding_all decide)

/-- C2: the two-line scenario.  Loading the `copy/fast/1024` (estimate
1000 ns) and `copy/slow/1024` (estimate 2000 ns) completions produces the
single group `"copy/1024"` holding throughputs 1.024 then 0.512; the color
map sends `fast`/`slow` to the last two palette entries; the chart model
holds that group with label `"1024"`; drawing it (at the geometry `main`'s
options derive: group start 90, bar width 30, group width 700) emits two
bar rectangles whose heights are in ratio 2:1, and the delta label
`"+100.00%"`. -/
theorem round_trip_scenario :
    load_data [⟨some "benchmark-complete", some "copy/fast/1024", some 1000⟩,
               ⟨some "benchmark-complete", some "copy/slow/1024", some 2000⟩] =
      some [("copy/1024",
        [⟨"copy", "copy/1024", "fast", 1024, 1.024⟩,
         ⟨"copy", "copy/1024", "slow", 1024, 0.512⟩])] ∧
    buildVariantToColor [("copy/1024",
        [⟨"copy", "copy/1024", "fast", 1024, 1.024⟩,
         ⟨"copy", "copy/1024", "slow", 1024, 0.512⟩])] =
      some [("fast", "#DDA77B"), ("slow", "#A99F96")] ∧
    buildGroups [("copy/1024",
        [⟨"copy", "copy/1024", "fast", 1024, 1.024⟩,
         ⟨"copy", "copy/1024", "slow", 1024, 0.512⟩])]
        [("fast", "#DDA77B"), ("slow", "#A99F96")] =
      some [⟨"1024", [(1.024, "#DDA77B"), (0.512, "#A99F96")]⟩] ∧
    ∃ prims, draw_group [] mainOptions
        ⟨"1024", [(1.024, "#DDA77B"), (0.512, "#A99F96")]⟩ 90 30 700 3 1.024 =
      some prims ∧
      (∃ h1 h2, rectHeights prims = [h1, h2] ∧ h1 = 2 * h2) ∧
      "+100.00%" ∈ textContents prims := by
  set_option maxRecDepth 4000 in
  refine ⟨by with_unfolding_all decide, by with_unfolding_all decide,
    by with_unfolding_all decide, ?_⟩
  refine ⟨_, rfl, ⟨500, 250, by with_unfolding_all decide,
    by norm_num⟩, by with_unfolding_all decide⟩

/-- Counterexample to C5 as stated: in a group whose two bars are both 0,
min = max = 0, yet the printed delta is `"+NaN%"` (the 0/0 division), not
`"+0.00%"`. -/
theorem delta_zero_counterexample :
    get_percent_difference 0 0 = "+NaN%" ∧
    get_percent_difference 0 0 ≠ "+0.00%" ∧
    ∃ prims, draw_group [] mainOptions ⟨"0", [(0, "#DDA77B"), (0, "#A99F96")]⟩
        90 30 700 3 1 = some prims ∧
      textContents prims = ["0", "+NaN%"] := by
  refine ⟨by with_unfolding_all decide, by with_unfolding_all decide,
    _, rfl, by with_unfolding_all decide⟩

/-- C5 (amended): for every group (with delta printing on) whose minimum
bar value is nonzero, the printed delta annotation is `"+"` followed by
`(max - min) / min * 100` formatted to two decimals and `"%"`; in
particular `"+0.00%"` whenever min = max (≠ 0). -/
theorem delta_formula (options : GroupBarOptions) (vals : List (ℚ × String))
    (label : String) (gsx bw gw bp mv mn mx : ℚ)
    (hd : options.print_delta = true)
    (hmin : (vals.map (·.1)).min? = some mn)
    (hmax : (vals.map (·.1)).max? = some mx)
    (hmn : mn ≠ 0) :
    ∃ prims, draw_group [] options ⟨label, vals⟩ gsx bw gw bp mv = some prims ∧
      textContents prims =
        [label, "+" ++ fmtTwoDecimals ((mx - mn) / mn * 100) ++ "%"] ∧
      (mn = mx → textContents prims = [label, "+0.00%"]) := by
  have heq := draw_group_delta_eq [] options ⟨label, vals⟩ gsx bw gw bp mv mn mx
    hd hmin hmax
  have hgpd : get_percent_difference mn mx =
      "+" ++ fmtTwoDecimals ((mx - mn) / mn * 100) ++ "%" := by
    simp only [get_percent_difference, F32.div, if_neg hmn, F32.mul100,
      F32.fmtTwo]
  have htc : textContents
      ([] ++ drawBars options mv bw bp gsx vals ++
       [Prim.text (gsx + bw) ((options.get_available_graph_height +
          options.chart_area_to_border_padding) + 20) label] ++
       [Prim.text (gsx + bw) (compute_y_for_value options mx mv - 10)
          (get_percent_difference mn mx)]) =
      [label, get_percent_difference mn mx] := by
    simp [textContents_append, textContents_drawBars, textContents]
  refine ⟨_, heq, ?_, ?_⟩
  · rw [htc, hgpd]
  · intro he
    rw [htc, hgpd, he]
    have hzero : (mx - mx) / mx * 100 = 0 := by simp
    have h0 : fmtTwoDecimals 0 = "0.00" := by with_unfolding_all decide
    rw [hzero, h0]
    rfl

/-- Witness for C5 (amended), at a group with bars 2 and 1: the delta label
is `"+100.00%"`. -/
theorem delta_formula_witness :
    ∃ prims, draw_group [] mainOptions ⟨"g", [(2, "a"), (1, "b")]⟩
        90 30 700 3 2 = some prims ∧
      textContents prims =
        ["g", "+" ++ fmtTwoDecimals (((2 : ℚ) - 1) / 1 * 100) ++ "%"] ∧
      ((1 : ℚ) = 2 → textContents prims = ["g", "+0.00%"]) :=
  delta_formula mainOptions [(2, "a"), (1, "b")] "g" 90 30 700 3 2 1 2
    rfl (by with_unfolding_all decide) (by with_unfolding_all decide)
    (by norm_num)

/-- Counterexample to C6 as stated: with a canvas of height 50 the derived
available graph height is −50, and the drawn bar rectangle has negative
height −50 (its top y-coordinate 10 also exceeds
`border_padding + available_graph_height = -40`). -/
theorem bar_geometry_counterexample :
    (⟨200, 50, 10, 20, 3, false⟩ : GroupBarOptions).get_available_graph_height
      = -50 ∧
    ∃ prims, draw_group [] ⟨200, 50, 10, 20, 3, false⟩
        ⟨"g", [(1, "#37123C")]⟩ 90 30 100 3 1 = some prims ∧
      Prim.rect 90 10 30 (-50) "#37123C" ∈ prims ∧ ¬ (0 : ℚ) ≤ -50 := by
  refine ⟨by norm_num [GroupBarOptions.get_available_graph_height, X_AXIS_SPACE],
    _, rfl, by with_unfolding_all decide, by norm_num⟩

/-- C6 (amended): for every options value whose available graph height is
non-negative and every group of non-negative bar values bounded by a
positive `max_value`, each bar rectangle drawn by `draw_group` has
non-negative height at most the available graph height, and its top
y-coordinate lies within `[border_padding, border_padding + height]`. -/
theorem bar_geometry (options : GroupBarOptions) (g : ChartGroup)
    (gsx bw gw bp mv : ℚ) (prims : List Prim)
    (hH : 0 ≤ options.get_available_graph_height)
    (hmv : 0 < mv)
    (hvals : ∀ p ∈ g.values_and_color, 0 ≤ p.1 ∧ p.1 ≤ mv)
    (hdraw : draw_group [] options g gsx bw gw bp mv = some prims) :
    ∀ x y w h fill, Prim.rect x y w h fill ∈ prims →
      0 ≤ h ∧ h ≤ options.get_available_graph_height ∧
      options.chart_area_to_border_padding ≤ y ∧
      y ≤ options.chart_area_to_border_padding +
        options.get_available_graph_height := by
  intro x y w h fill hmem
  have hbars : Prim.rect x y w h fill ∈
      drawBars options mv bw bp gsx g.values_and_color := by
    unfold draw_group at hdraw
    repeat' split at hdraw
    all_goals
      first
        | (injection hdraw with hdraw
           subst hdraw
           simp at hmem
           exact hmem)
        | injection hdraw
  obtain ⟨vc, hvc, hh, hy⟩ := rect_mem_drawBars hbars
  obtain ⟨hv0, hvmv⟩ := hvals vc hvc
  have ht0 : 0 ≤ vc.1 / mv := div_nonneg hv0 (le_of_lt hmv)
  have ht1 : vc.1 / mv ≤ 1 := (div_le_one hmv).mpr hvmv
  have h0 : 0 ≤ h := by
    rw [hh]
    exact mul_nonneg hH ht0
  have h1 : h ≤ options.get_available_graph_height := by
    rw [hh]
    calc options.get_available_graph_height * (vc.1 / mv)
        ≤ options.get_available_graph_height * 1 :=
          mul_le_mul_of_nonneg_left ht1 hH
      _ = options.get_available_graph_height := mul_one _
  refine ⟨h0, h1, ?_, ?_⟩
  · rw [hy]
    linarith
  · rw [hy]
    linarith

set_option maxRecDepth 8000 in
/-- Witness for C6 (amended) on the C2 group: the tall bar has height 500
with top y-coordinate 10, inside `[10, 510]`. -/
theorem bar_geometry_witness :
    (0 : ℚ) ≤ 500 ∧
    (500 : ℚ) ≤ mainOptions.get_available_graph_height ∧
    mainOptions.chart_area_to_border_padding ≤ 10 ∧
    (10 : ℚ) ≤ mainOptions.chart_area_to_border_padding +
      mainOptions.get_available_graph_height :=
  bar_geometry mainOptions ⟨"1024", [(1.024, "#DDA77B"), (0.512, "#A99F96")]⟩
    90 30 700 3 1.024
    [Prim.rect 90 10 30 500 "#DDA77B", Prim.rect 123 260 30 250 "#A99F96",
     Prim.text 120 530 "1024", Prim.text 120 0 "+100.00%"]
    (by norm_num [mainOptions, GroupBarOptions.get_available_graph_height,
      X_AXIS_SPACE])
    (by norm_num)
    (by
      intro p hp
      rcases List.mem_cons.mp hp with rfl | hp
      · norm_num
      · rcases List.mem_cons.mp hp with rfl | hp
        · norm_num
        · cases hp)
    (by with_unfolding_all decide)
    90 10 30 500 "#DDA77B" (by with_unfolding_all decide)

set_option maxRecDepth 8000 in
/-- Counterexample to C8 as stated: with canvas width 50 the derived
available graph width is −50 ≤ 0, yet `render_grouped_bar_chart` does not
fail — it returns a drawing that already contains a bar rectangle. -/
theorem degenerate_layout_not_rejected :
    (⟨50, 600, 10, 20, 3, false⟩ : GroupBarOptions).get_available_graph_width
      ≤ 0 ∧
    ∃ prims, render_grouped_bar_chart "t" [] ⟨50, 600, 10, 20, 3, false⟩
        [⟨"g", [(1, "#37123C")]⟩] [] = some prims ∧
      Prim.rect 90 10 (-50) 500 "#37123C" ∈ prims := by
  refine ⟨by norm_num [GroupBarOptions.get_available_graph_width],
    _, rfl, by with_unfolding_all decide⟩

/-- C8 (amended): `render_grouped_bar_chart` performs no degenerate-layout
check at all: whenever there is at least one group and every group has at
least one bar, it succeeds and emits a drawing regardless of the derived
available graph width/height (even when they are ≤ 0); the only failure is
the `unwrap` panic when no bars exist. -/
theorem render_no_layout_check (title : String) (doc : List Prim)
    (options : GroupBarOptions) (groups : List ChartGroup)
    (vtc : List (String × String))
    (hne : groups ≠ [])
    (hbars : ∀ g ∈ groups, g.values_and_color ≠ []) :
    ∃ prims, render_grouped_bar_chart title doc options groups vtc
      = some prims := by
  obtain ⟨g0, gs0, rfl⟩ := List.exists_cons_of_ne_nil hne
  have hmv : ∃ mv, maxBarValue (g0 :: gs0) = some mv := by
    unfold maxBarValue
    cases hmax : ((g0 :: gs0).flatMap fun g =>
        g.values_and_color.map (·.1)).max? with
    | none =>
      exfalso
      have hnil := List.max?_eq_none_iff.mp hmax
      rw [List.flatMap_eq_nil_iff] at hnil
      have := hnil g0 (List.mem_cons_self _ _)
      rw [List.map_eq_nil_iff] at this
      exact hbars g0 (List.mem_cons_self _ _) this
    | some mv => exact ⟨mv, rfl⟩
  obtain ⟨mv, hmv⟩ := hmv
  have hmnb : ∃ mnb, (((g0 :: gs0).map fun g =>
      (g.values_and_color.length : ℕ)).max?) = some mnb := by
    cases hmb : (((g0 :: gs0).map fun g =>
        (g.values_and_color.length : ℕ)).max?) with
    | none =>
      exfalso
      have := List.max?_eq_none_iff.mp hmb
      simp at this
    | some mnb => exact ⟨mnb, rfl⟩
  obtain ⟨mnb, hmnb⟩ := hmnb
  obtain ⟨l, hl⟩ := drawGroupsFold_isSome options
    (min (options.get_available_graph_width / ((g0 :: gs0).length : ℚ) /
      (mnb : ℚ)) 30)
    (options.get_available_graph_width / ((g0 :: gs0).length : ℚ)) mv
    (g0 :: gs0)
    (draw_x_scale (draw_y_scale doc options "Gb/s"
      (X_AXIS_SPACE + options.chart_area_to_border_padding) mv) options "Gb/s"
      (X_AXIS_SPACE + options.chart_area_to_border_padding) mv)
    (X_AXIS_SPACE + options.chart_area_to_border_padding) hbars
  refine ⟨l ++ draw_legend [] options vtc ++
    [Prim.text (options.chart_area_to_border_padding +
      options.get_available_graph_width - 70) 0 title], ?_⟩
  simp only [render_grouped_bar_chart, hmv, hmnb, hl]

/-- Witness for C8 (amended): the degenerate 50-wide canvas with one
one-bar group renders successfully. -/
theorem render_no_layout_check_witness :
    ∃ prims, render_grouped_bar_chart "t" [] ⟨50, 600, 10, 20, 3, false⟩
      [⟨"g", [(1, "#37123C")]⟩] [] = some prims :=
  render_no_layout_check "t" [] ⟨50, 600, 10, 20, 3, false⟩
    [⟨"g", [(1, "#37123C")]⟩] [] (by simp)
    (by
      intro g hg
      rcases List.mem_cons.mp hg with rfl | hg
      · simp
      · cases hg)

theorem mem_records_insertGroup {key : String} {v : BenchData}
    {l : List (String × List BenchData)} {g : String × List BenchData}
    (hg : g ∈ insertGroup key v l) :
    ∀ r ∈ g.2, r = v ∨ ∃ g' ∈ l, r ∈ g'.2 := by
  induction l with
  | nil =>
    simp only [insertGroup, List.mem_singleton] at hg
    subst hg
    simp
  | cons p rest ih =>
    obtain ⟨k, vs⟩ := p
    simp only [insertGroup] at hg
    by_cases h1 : key = k
    · rw [if_pos h1] at hg
      rcases List.mem_cons.mp hg with rfl | hg
      · intro r hr
        rcases List.mem_append.mp hr with hr | hr
        · exact Or.inr ⟨(k, vs), List.mem_cons_self _ _, hr⟩
        · rw [List.mem_singleton] at hr
          exact Or.inl hr
      · intro r hr
        exact Or.inr ⟨g, List.mem_cons_of_mem _ hg, hr⟩
    · by_cases h2 : key < k
      · rw [if_neg h1, if_pos h2] at hg
        rcases List.mem_cons.mp hg with rfl | hg
        · intro r hr
          rw [List.mem_singleton] at hr
          exact Or.inl hr
        · intro r hr
          exact Or.inr ⟨g, hg, hr⟩
      · rw [if_neg h1, if_neg h2] at hg
        rcases List.mem_cons.mp hg with rfl | hg
        · intro r hr
          exact Or.inr ⟨(k, vs), List.mem_cons_self _ _, hr⟩
        · intro r hr
          rcases ih hg r hr with h | ⟨g', hg', hr'⟩
          · exact Or.inl h
          · exact Or.inr ⟨g', List.mem_cons_of_mem _ hg', hr'⟩

theorem processLineExcluding_preserves {exclude : List Nat}
    {groups g2 : List (String × List BenchData)} {l : JsonLine}
    (h : ∀ g ∈ groups, ∀ r ∈ g.2, r.num_bytes ∉ exclude)
    (hp : processLineExcluding exclude groups l = some g2) :
    ∀ g ∈ g2, ∀ r ∈ g.2, r.num_bytes ∉ exclude := by
  unfold processLineExcluding at hp
  repeat' split at hp
  all_goals
    first
      | (injection hp with hp; subst hp;
         first
           | exact h
           | (intro g hg r hr
              rcases mem_records_insertGroup hg r hr with rfl | ⟨g', hg', hr'⟩
              · assumption
              · exact h g' hg' r hr'))
      | injection hp

theorem load_data_excluding_aux_preserves (exclude : List Nat)
    (lines : List JsonLine) :
    ∀ groups m, (∀ g ∈ groups, ∀ r ∈ g.2, r.num_bytes ∉ exclude) →
      load_data_excluding_aux exclude groups lines = some m →
      ∀ g ∈ m, ∀ r ∈ g.2, r.num_bytes ∉ exclude := by
  induction lines with
  | nil =>
    intro groups m h heq
    injection heq with heq
    subst heq
    exact h
  | cons l ls ih =>
    intro groups m h heq
    unfold load_data_excluding_aux at heq
    cases hp : processLineExcluding exclude groups l with
    | none => rw [hp] at heq; cases heq
    | some g2 =>
      rw [hp] at heq
      exact ih g2 m (processLineExcluding_preserves h hp) heq

/-- C9 (spec-modelled): with an exclusion size list configured, no record
whose `num_bytes` is excluded appears anywhere in the loader's resulting
groups, however well-formed its line was. -/
theorem exclusion_filter (exclude : List Nat) (lines : List JsonLine)
    (m : List (String × List BenchData))
    (h : load_data_excluding exclude lines = some m) :
    ∀ g ∈ m, ∀ r ∈ g.2, r.num_bytes ∉ exclude :=
  load_data_excluding_aux_preserves exclude lines [] m (by simp) h

set_option maxRecDepth 8000 in
/-- Witness for C9: excluding size 1024 drops the well-formed
`copy/fast/1024` record; the surviving record has size 2048 ∉ [1024]. -/
theorem exclusion_filter_witness :
    (⟨"copy", "copy/2048", "fast", 2048, 256/125⟩ : BenchData).num_bytes
      ∉ [1024] :=
  exclusion_filter [1024]
    [⟨some "benchmark-complete", some "copy/fast/1024", some 1000⟩,
     ⟨some "benchmark-complete", some "copy/fast/2048", some 1000⟩]
    [("copy/2048", [⟨"copy", "copy/2048", "fast", 2048, 256/125⟩])]
    (by with_unfolding_all decide)
    ("copy/2048", [⟨"copy", "copy/2048", "fast", 2048, 256/125⟩])
    (List.mem_singleton.mpr rfl)
    ⟨"copy", "copy/2048", "fast", 2048, 256/125⟩
    (List.mem_singleton.mpr rfl)

/-- C10: when a group's minimum bar value is 0, `get_percent_difference`
divides by zero unguarded: the rendered delta label is the non-finite
`"+inf%"` when the maximum is positive and `"+NaN%"` when it is also 0. -/
theorem delta_divide_by_zero (mx : ℚ) (hmx : 0 < mx) :
    get_percent_difference 0 mx = "+inf%" ∧
    get_percent_difference 0 0 = "+NaN%" ∧
    ∃ prims, draw_group [] mainOptions
        ⟨"g", [(0, "#37123C"), (mx, "#71677C")]⟩ 90 30 700 3 mx = some prims ∧
      textContents prims = ["g", "+inf%"] := by
  have h1 : get_percent_difference 0 mx = "+inf%" := by
    have hdiv : F32.div (mx - 0) 0 = F32.inf := by
      unfold F32.div
      rw [if_pos rfl, if_neg (by rw [sub_zero]; exact ne_of_gt hmx),
          if_pos (by rw [sub_zero]; exact hmx)]
    simp only [get_percent_difference, hdiv, F32.mul100, F32.fmtTwo]
    rfl
  have hmin : (([(0, "#37123C"), (mx, "#71677C")] :
      List (ℚ × String)).map (·.1)).min? = some 0 := by
    show some (min 0 mx) = some 0
    rw [min_eq_left (le_of_lt hmx)]
  have hmax : (([(0, "#37123C"), (mx, "#71677C")] :
      List (ℚ × String)).map (·.1)).max? = some mx := by
    show some (max 0 mx) = some mx
    rw [max_eq_right (le_of_lt hmx)]
  have heq := draw_group_delta_eq [] mainOptions
    ⟨"g", [(0, "#37123C"), (mx, "#71677C")]⟩ 90 30 700 3 mx 0 mx
    rfl hmin hmax
  refine ⟨h1, by with_unfolding_all decide, _, heq, ?_⟩
  simp [textContents_append, textContents_drawBars, textContents, h1]

/-- Witness for C10 at `max = 1`: the group with bars 0 and 1 gets the
delta label `"+inf%"`. -/
theorem delta_divide_by_zero_witness :
    get_percent_difference 0 1 = "+inf%" ∧
    get_percent_difference 0 0 = "+NaN%" ∧
    ∃ prims, draw_group [] mainOptions
        ⟨"g", [(0, "#37123C"), (1, "#71677C")]⟩ 90 30 700 3 1 = some prims ∧
      textContents prims = ["g", "+inf%"] :=
  delta_divide_by_zero 1 (by norm_num)
